import Mathlib

/-!
Verification development for the pyshareabouts client object model
(`shareabouts/models.py`).  The Python classes are shallowly embedded:

* attribute mappings (`self._data`) become association lists over a
  JSON-like value type `Val`;
* object identity, which several properties depend on, is made explicit
  by a store: a `ShareaboutsCollection` holds a heap (`store`) of model
  attribute mappings, its ordered sequence (`seq`) and identity map
  (`byId`) refer to models by their index in the store;
* fallible operations (Python exceptions) return `Except PyErr`;
* the HTTP transport is an opaque parameter, as in the code it is the
  external `requests` library.
-/

namespace PyShareabouts

/-- JSON-like values held in a model's attribute mapping.  Nested objects
are encoded as cons chains (`onil`/`ocons`), which keeps the inductive
non-nested; `Val.objOf` and `Val.asObj` mediate with ordinary association
lists. -/
inductive Val : Type where
  | s : String → Val
  | n : Int → Val
  | b : Bool → Val
  | null : Val
  | onil : Val
  | ocons : String → Val → Val → Val
deriving DecidableEq, Repr

/-- A Python dict from string keys to values, in insertion order. -/
abbrev AttrMap := List (String × Val)

/-- The `Val` encoding of a dict value. -/
def Val.objOf : AttrMap → Val
  | [] => .onil
  | (k, v) :: rest => .ocons k v (Val.objOf rest)

/-- Decode a `Val` back into a dict, when it is one. -/
def Val.asObj : Val → Option AttrMap
  | .onil => some []
  | .ocons k v rest =>
    match Val.asObj rest with
    | some m => some ((k, v) :: m)
    | none => none
  | _ => none

theorem Val.asObj_objOf : ∀ m, Val.asObj (Val.objOf m) = some m
  | [] => rfl
  | (k, v) :: rest => by simp [Val.objOf, Val.asObj, Val.asObj_objOf rest]

/-- Python exceptions surfaced by the embedded code. -/
inductive PyErr : Type where
  | keyError
  | typeError
  | attrError
  | apiError (url : String) (status : Nat) (body : String)
  | noUrl
  | outOfFuel
deriving DecidableEq, Repr

/-- `d[k]` / `d.get(k)` lookup on a dict. -/
def lookupA : AttrMap → String → Option Val
  | [], _ => none
  | (k', v) :: rest, k => if k' = k then some v else lookupA rest k

/-- `d[k] = v`: replace the binding in place, else append (dict order). -/
def setKey : AttrMap → String → Val → AttrMap
  | [], k, v => [(k, v)]
  | (k', v') :: rest, k, v =>
    if k' = k then (k, v) :: rest else (k', v') :: setKey rest k v

/-- `del d[k]` (unconditional form; callers guard on presence). -/
def delKey (d : AttrMap) (k : String) : AttrMap :=
  d.filter (fun p => decide (p.1 ≠ k))

def keysA (d : AttrMap) : List String := d.map Prod.fst

/-- Python `d.update(other)`: entries of `other` override or append, in order. -/
def updateA (d other : AttrMap) : AttrMap :=
  other.foldl (fun a p => setKey a p.1 p.2) d

/-- A `ShareaboutsCollection`: the heap of model instances (`store`),
the ordered sequence `self._data` and the identity map `self._data_by_id`,
both referring to instances by store index, so that sharing is explicit. -/
structure ShareaboutsCollection : Type where
  store : List AttrMap
  seq : List Nat
  byId : List (Val × Nat)
deriving DecidableEq, Repr

def storeGet (st : List AttrMap) (mid : Nat) : AttrMap :=
  (st[mid]?).getD []

def storeSet (st : List AttrMap) (mid : Nat) (d : AttrMap) : List AttrMap :=
  st.set mid d

def assocFind : List (Val × Nat) → Val → Option Nat
  | [], _ => none
  | (k', m) :: rest, k => if k' = k then some m else assocFind rest k

/-- `ShareaboutsCollection._id_of`: `data.get(pk_attr, None)`.  A stored
`null` and an absent key are both Python `None`. -/
def ShareaboutsCollection.idOf (pk : String) (d : AttrMap) : Option Val :=
  match lookupA d pk with
  | some Val.null => none
  | o => o

/-- `ShareaboutsCollection.get(key)` restricted to the identity-map hit
(`self._data_by_id[key]`); `None` is never registered as a key, so a
missing primary key can never be found. -/
def ShareaboutsCollection.getById (c : ShareaboutsCollection) :
    Option Val → Option Nat
  | none => none
  | some v => assocFind c.byId v

/-- `__contains__`: `self._id_of(inst_data) in self._data_by_id`. -/
def ShareaboutsCollection.memData (pk : String) (c : ShareaboutsCollection)
    (raw : AttrMap) : Bool :=
  match ShareaboutsCollection.idOf pk raw with
  | none => false
  | some v => (assocFind c.byId v).isSome

/-- `ShareaboutsCollection.add(inst_data)`: merge into the instance the
identity map already holds for the data's primary key, else append a
fresh instance and, when the key is present, register it.  Returns the
new state together with the returned instance's store index. -/
def ShareaboutsCollection.add (pk : String) (c : ShareaboutsCollection)
    (raw : AttrMap) : ShareaboutsCollection × Nat :=
  match c.getById (ShareaboutsCollection.idOf pk raw) with
  | some mid =>
    (⟨storeSet c.store mid (updateA (storeGet c.store mid) raw), c.seq, c.byId⟩, mid)
  | none =>
    let mid := c.store.length
    let byId' :=
      match ShareaboutsCollection.idOf pk raw with
      | some v => c.byId ++ [(v, mid)]
      | none => c.byId
    (⟨c.store ++ [raw], c.seq ++ [mid], byId'⟩, mid)

/-- `ShareaboutsCollection.update(collection_data)`: `add` each element. -/
def ShareaboutsCollection.updateColl (pk : String) (c : ShareaboutsCollection)
    (raws : List AttrMap) : ShareaboutsCollection :=
  raws.foldl (fun cc r => (ShareaboutsCollection.add pk cc r).1) c

/-! ## The few Python string operations the code relies on -/

/-- Python `c in s`. -/
def strContains (s : String) (c : Char) : Bool := s.data.contains c

/-- Python `s.endswith('/')`. -/
def endsWithSlash (s : String) : Bool := s.data.getLast? == some '/'

/-- Python truthiness of a string. -/
def truthyStr (s : String) : Bool := !s.data.isEmpty

/-- Python truthiness of an optional string (JSON `null` ↦ `None`). -/
def truthyS : Option String → Bool
  | none => false
  | some s => truthyStr s

/-! ## Pagination envelopes -/

/-- The `metadata` section of a paginated response envelope.  `none` in
`next`/`previous` models JSON `null`; `page`/`length` are read with
`.get`, so their absence is `none` as well. -/
structure Meta : Type where
  next : Option String
  previous : Option String
  page : Option Nat
  length : Option Nat
deriving DecidableEq, Repr

/-- A raw collection envelope: pagination metadata plus the list of raw
item dicts (`results` for plain resources, `features` for places; the
field name is abstracted, only `self._results_attr` selects it). -/
structure Envelope : Type where
  metadata : Meta
  results : List AttrMap
deriving DecidableEq, Repr

/-- `int(math.ceil(length / page_size))` on non-negative counts. -/
def ceilDivPy (length pageSize : Nat) : Nat := (length + pageSize - 1) / pageSize

/-- `ShareaboutsCollection.parse_page_count`: the three-branch rule from
the source.  Errors model the `TypeError` Python would raise dividing a
missing `length`. -/
def ShareaboutsCollection.parse_page_count (e : Envelope) :
    Except PyErr (Option Nat) :=
  if truthyS e.metadata.next && decide (0 < e.results.length) then
    match e.metadata.length with
    | some len => .ok (some (ceilDivPy len e.results.length))
    | none => .error .typeError
  else if !truthyS e.metadata.previous then .ok (some 1)
  else .ok e.metadata.page

/-- The query-string attachment in `ShareaboutsCollection.fetch`:
`'?'.join([url, qs])` when the URL has no `?` yet, else `'&'.join`. -/
def fullUrl (url qs : String) : String :=
  if strContains url '?' then url ++ "&" ++ qs else url ++ "?" ++ qs

/-- `ShareaboutsCollection.fetch(url, **options)`: GET the page, parse
the page count, `update` the collection with the results, and return the
raw envelope.  The transport is a map from full URL to the parsed body of
a 200 response (`none` = non-200, which `send_and_parse` raises on). -/
def ShareaboutsCollection.fetch (server : String → Option Envelope)
    (pk qs url : String) (c : ShareaboutsCollection) :
    Except PyErr (Envelope × ShareaboutsCollection × Option Nat) :=
  match server (fullUrl url qs) with
  | none => .error (.apiError (fullUrl url qs) 404 "")
  | some env =>
    match ShareaboutsCollection.parse_page_count env with
    | .error e => .error e
    | .ok pc => .ok (env, ShareaboutsCollection.updateColl pk c env.results, pc)

/-- The loop variable update in `fetch_all`:
`page_url = page_data[self._metadata_attr].get('next')`; a missing or
`null` cursor becomes the falsy `""`. -/
def nextUrl (e : Envelope) : String := (e.metadata.next).getD ""

/-- `ShareaboutsCollection.fetch_all`: follow `next` cursors, yielding
each raw envelope, while the page URL is truthy.  The generator is
embedded with explicit fuel; `outOfFuel` marks a run longer than the
fuel, never a normal stop. -/
def ShareaboutsCollection.fetch_all (server : String → Option Envelope)
    (pk qs : String) :
    Nat → String → ShareaboutsCollection →
    Except PyErr (List Envelope × ShareaboutsCollection)
  | 0, url, c => if truthyStr url then .error .outOfFuel else .ok ([], c)
  | fuel + 1, url, c =>
    if truthyStr url then
      match ShareaboutsCollection.fetch server pk qs url c with
      | .error e => .error e
      | .ok (env, c', _) =>
        match ShareaboutsCollection.fetch_all server pk qs fuel (nextUrl env) c' with
        | .error e => .error e
        | .ok (rest, c'') => .ok (env :: rest, c'')
    else .ok ([], c)

def exOk {α : Type} : Except PyErr α → Bool
  | .ok _ => true
  | .error _ => false

/-- A finite page chain served at `url`: each envelope is what the server
returns for its page URL (with the query string attached as `fetch`
does), each page's `next` cursor leads to the next page, the last page's
cursor is falsy, and every page parses. -/
def isChainB (server : String → Option Envelope) (qs : String) :
    String → List Envelope → Bool
  | url, [] => !truthyStr url
  | url, e :: es =>
    truthyStr url &&
    decide (server (fullUrl url qs) = some e) &&
    exOk (ShareaboutsCollection.parse_page_count e) &&
    isChainB server qs (nextUrl e) es

/-! ## Model dictionary protocols

`ShareaboutsModel` exposes a mapping interface over `self._data`.
`ShareaboutsPlace` reroutes it GeoJSON-style: `geometry` and `id` live at
the top level, everything else inside the `properties` sub-dict
(`geojson_method` for `__getitem__`/`__setitem__`/`get`, a bespoke
`__iter__`; membership `k in model` falls back to `__iter__`). -/

/-- Plain `k in model` (iteration over `self._data` keys). -/
def plainMem (d : AttrMap) (k : String) : Except PyErr Bool :=
  .ok (lookupA d k).isSome

/-- Plain `model[k]`. -/
def plainGetItem (d : AttrMap) (k : String) : Except PyErr Val :=
  match lookupA d k with
  | some v => .ok v
  | none => .error .keyError

/-- `ShareaboutsModel.key()`: `self.get(self._pk_attr)`, default `None`. -/
def plainKeyOf (pk : String) (d : AttrMap) : Except PyErr Val :=
  .ok ((lookupA d pk).getD .null)

/-- `ShareaboutsModel.has_key()`: `self._pk_attr in self`. -/
def plainHasKey (pk : String) (d : AttrMap) : Except PyErr Bool :=
  plainMem d pk

/-- `ShareaboutsPlace.__iter__`-backed membership: the first loop yields
the top-level keys among `geometry`/`id`; only if the key is not found
there is `self._data['properties']` consulted (raising `KeyError` when
the entry is missing, and iterating a non-dict otherwise). -/
def placeMem (d : AttrMap) (k : String) : Except PyErr Bool :=
  if (k = "geometry" ∨ k = "id") ∧ (lookupA d k).isSome then .ok true
  else
    match lookupA d "properties" with
    | none => .error .keyError
    | some v =>
      match v.asObj with
      | none => .error .typeError
      | some props =>
        .ok (decide (¬(k = "geometry" ∨ k = "id")) && (lookupA props k).isSome)

/-- `geojson_method('__getitem__')`. -/
def placeGetItem (d : AttrMap) (k : String) : Except PyErr Val :=
  if k = "geometry" ∨ k = "id" then plainGetItem d k
  else
    match lookupA d "properties" with
    | none => .error .keyError
    | some v =>
      match v.asObj with
      | none => .error .typeError
      | some props => plainGetItem props k

/-- `geojson_method('get')` with an explicit default. -/
def placeGet (d : AttrMap) (k : String) (dflt : Val) : Except PyErr Val :=
  if k = "geometry" ∨ k = "id" then .ok ((lookupA d k).getD dflt)
  else
    match lookupA d "properties" with
    | none => .error .keyError
    | some v =>
      match v.asObj with
      | none => .error .attrError
      | some props => .ok ((lookupA props k).getD dflt)

/-- `geojson_method('__setitem__')`. -/
def placeSetItem (d : AttrMap) (k : String) (v : Val) : Except PyErr AttrMap :=
  if k = "geometry" ∨ k = "id" then .ok (setKey d k v)
  else
    match lookupA d "properties" with
    | none => .error .keyError
    | some pv =>
      match pv.asObj with
      | none => .error .typeError
      | some props => .ok (setKey d "properties" (Val.objOf (setKey props k v)))

/-- `ShareaboutsPlace` deletion: `__delitem__` is *not* rerouted, it is
inherited from `ShareaboutsModel` and acts on the top level of
`self._data`. -/
def placeDelItem (d : AttrMap) (k : String) : Except PyErr AttrMap :=
  if (lookupA d k).isSome then .ok (delKey d k) else .error .keyError

/-- `ShareaboutsPlace.__iter__` run to completion: top-level keys that
are `geometry`/`id` first, then the `properties` keys except those two. -/
def placeIter (d : AttrMap) : Except PyErr (List String) :=
  match lookupA d "properties" with
  | none => .error .keyError
  | some v =>
    match v.asObj with
    | none => .error .typeError
    | some props =>
      .ok ((keysA d).filter (fun k => decide (k = "geometry" ∨ k = "id")) ++
        (keysA props).filter (fun k => decide (¬(k = "geometry" ∨ k = "id"))))

/-- `ShareaboutsPlace.key()`: `self.get('id')` through the GeoJSON
router, i.e. a top-level read with default `None`. -/
def placeKeyOf (d : AttrMap) : Except PyErr Val :=
  .ok ((lookupA d "id").getD .null)

/-- `ShareaboutsPlace.has_key()`: `'id' in self` (via `__iter__`). -/
def placeHasKey (d : AttrMap) : Except PyErr Bool :=
  placeMem d "id"

/-! ## URL derivation -/

/-- `ShareaboutsModel.url()`, parameterised over the type's mapping
protocol (`mem`, `__getitem__`, `key()`) and the owning collection's URL
(absent when `self.collection` is `None`): return the explicit `url`
attribute when present, else compose the collection URL with the primary
key, else raise the "has no url attribute" API exception. -/
def ShareaboutsModel.url
    (mem : AttrMap → String → Except PyErr Bool)
    (getIt : AttrMap → String → Except PyErr Val)
    (keyOf : AttrMap → Except PyErr Val)
    (pk : String) (d : AttrMap) (collUrl : Option (Except PyErr String)) :
    Except PyErr Val := do
  let hasUrl ← mem d "url"
  if hasUrl then getIt d "url"
  else
    match collUrl with
    | none => .error .noUrl
    | some cu => do
      let hasPk ← mem d pk
      if hasPk then do
        let u ← cu
        let k ← keyOf d
        match k with
        | .s t =>
          if endsWithSlash u then .ok (.s (u ++ t)) else .ok (.s (u ++ "/" ++ t))
        | _ => .error .typeError
      else .error .noUrl

/-- `ShareaboutsAccountSet.url()`: the API root (`self._url`). -/
def ShareaboutsAccountSet.url (root : String) : Except PyErr String :=
  .ok root

/-- `ShareaboutsAccount.url()` for an account held in the account set. -/
def ShareaboutsAccount.url (root : String) (accountD : AttrMap) :
    Except PyErr Val :=
  ShareaboutsModel.url plainMem plainGetItem (plainKeyOf "username") "username"
    accountD (some (ShareaboutsAccountSet.url root))

/-- Coerce a model URL to the string its consumers concatenate with. -/
def asUrlString (v : Except PyErr Val) : Except PyErr String :=
  match v with
  | .error e => .error e
  | .ok (.s u) => .ok u
  | .ok _ => .error .typeError

/-- `ShareaboutsDatasetSet.url()`: `self.owner.url() + '/datasets'`. -/
def ShareaboutsDatasetSet.url (root : String) (accountD : AttrMap) :
    Except PyErr String :=
  match asUrlString (ShareaboutsAccount.url root accountD) with
  | .error e => .error e
  | .ok u => .ok (u ++ "/datasets")

/-- `ShareaboutsDataset.url()` for a dataset held in an account's
dataset set (`_pk_attr = 'slug'`). -/
def ShareaboutsDataset.url (root : String) (accountD datasetD : AttrMap) :
    Except PyErr Val :=
  ShareaboutsModel.url plainMem plainGetItem (plainKeyOf "slug") "slug"
    datasetD (some (ShareaboutsDatasetSet.url root accountD))

/-- `ShareaboutsPlaceSet.url()`: `self.dataset.url() + '/places'`. -/
def ShareaboutsPlaceSet.url (root : String) (accountD datasetD : AttrMap) :
    Except PyErr String :=
  match asUrlString (ShareaboutsDataset.url root accountD datasetD) with
  | .error e => .error e
  | .ok u => .ok (u ++ "/places")

/-- `url()` of a `ShareaboutsPlace` held in a dataset's place set
(GeoJSON mapping protocol, `_pk_attr = 'id'`). -/
def ShareaboutsPlace.url (root : String) (accountD datasetD placeD : AttrMap) :
    Except PyErr Val :=
  ShareaboutsModel.url placeMem placeGetItem placeKeyOf "id"
    placeD (some (ShareaboutsPlaceSet.url root accountD datasetD))

/-! ## Saving -/

/-- An HTTP response after `json.loads`: status code, parsed body,
raw text. -/
structure Resp : Type where
  status : Nat
  body : AttrMap
  text : String

/-- The transport: method, url, serialized payload ↦ response. -/
abbrev Transport := String → String → AttrMap → Resp

/-- One request as issued by `save`. -/
structure SentReq : Type where
  method : String
  url : String
  payload : AttrMap
deriving DecidableEq, Repr

/-- Per-resource-type configuration of `save`: primary-key attribute,
`_excluded_fields`, the type's `serialize` and `has_key`. -/
structure SaveCfg : Type where
  pk : String
  excluded : List String
  ser : AttrMap → AttrMap
  hasKeyF : AttrMap → Except PyErr Bool

/-- The excluded-field stripping loop in `save`:
`for field in self._excluded_fields: if field in send_data: del send_data[field]`. -/
def stripEx (excluded : List String) (d : AttrMap) : AttrMap :=
  excluded.foldl (fun a f => if (lookupA a f).isSome then delKey a f else a) d

/-- `ShareaboutsModel.save()`.  `send_data = self.serialize()` is the
model's own `_data` dict (not a copy), so the stripping loop mutates the
model; `has_key`/`url()` are then evaluated on the stripped state.  With
the key present a PUT to `url()` accepts only 200, otherwise a POST to
the collection URL accepts only 201; an accepted response is merged into
the model's attributes, any other status raises the API error carrying
url, status and body text.  Returns the issued request and the model's
final attributes. -/
def ShareaboutsModel.save (cfg : SaveCfg) (tr : Transport)
    (urlOf : AttrMap → Except PyErr Val) (collUrl : Except PyErr String)
    (d0 : AttrMap) : Except PyErr (SentReq × AttrMap) :=
  let send := stripEx cfg.excluded (cfg.ser d0)
  match cfg.hasKeyF send with
  | .error e => .error e
  | .ok true =>
    match asUrlString (urlOf send) with
    | .error e => .error e
    | .ok u =>
      let r := tr "PUT" u send
      if r.status = 200 then .ok (⟨"PUT", u, send⟩, updateA send r.body)
      else .error (.apiError u r.status r.text)
  | .ok false =>
    match collUrl with
    | .error e => .error e
    | .ok cu =>
      let r := tr "POST" cu send
      if r.status = 201 then .ok (⟨"POST", cu, send⟩, updateA send r.body)
      else .error (.apiError cu r.status r.text)

/-- The method of the one request `save` issued, when it issued one. -/
def sentMethod (res : Except PyErr (SentReq × AttrMap)) : Option String :=
  match res with
  | .ok (req, _) => some req.method
  | .error _ => none

/-- `ShareaboutsModel._excluded_fields`. -/
def stdExcluded : List String := ["id", "created_datetime", "updated_datetime"]

/-- A plain model type: `serialize` returns `self._data` itself,
`has_key` checks the primary key at the top level. -/
def plainSaveCfg (pk : String) (excluded : List String) : SaveCfg :=
  ⟨pk, excluded, id, plainHasKey pk⟩

/-- `ShareaboutsModel`: `_pk_attr = 'id'`. -/
def defaultSaveCfg : SaveCfg := plainSaveCfg "id" stdExcluded

/-- `ShareaboutsDataset.serialize` for a dataset with no loaded
submission sets: `data['submission_sets'] = {}` (mutating `_data`). -/
def ShareaboutsDataset.serializeNoSets (d : AttrMap) : AttrMap :=
  setKey d "submission_sets" Val.onil

/-- `ShareaboutsDataset`: `_pk_attr = 'slug'`, inherited excluded
fields, serializer as above, inherited `has_key`. -/
def datasetSaveCfg : SaveCfg :=
  ⟨"slug", stdExcluded, ShareaboutsDataset.serializeNoSets, plainHasKey "slug"⟩

/-- `ShareaboutsPlace`: excluded fields extended with `dataset`,
`has_key` via the GeoJSON iteration. -/
def placeSaveCfg : SaveCfg :=
  ⟨"id", stdExcluded ++ ["dataset"], id, placeHasKey⟩

/-- `ShareaboutsSubmission`: excluded fields extended with `dataset`,
plain mapping protocol. -/
def submissionSaveCfg : SaveCfg :=
  plainSaveCfg "id" (stdExcluded ++ ["dataset"])

/-! ## Concrete transports, pages and servers used by closed statements -/

/-- A transport whose every response is `201 Created` with a server
assigned id. -/
def demoTransport201 : Transport := fun _ _ _ => ⟨201, [("id", .s "6")], "created"⟩

/-- A transport whose every response is `200 OK` with an empty body. -/
def demoTransport200 : Transport := fun _ _ _ => ⟨200, [], "ok"⟩

/-- Page 1 of a three-page chain: cursor to `"u2"`. -/
def demoPage1 : Envelope := ⟨⟨some "u2", none, some 1, some 3⟩, [[("id", .s "a")]]⟩

/-- Page 2: cursor to `"u3"`. -/
def demoPage2 : Envelope := ⟨⟨some "u3", some "u1", some 2, some 3⟩, [[("id", .s "b")]]⟩

/-- Page 3: no next cursor. -/
def demoPage3 : Envelope := ⟨⟨none, some "u2", some 3, some 3⟩, [[("id", .s "c")]]⟩

/-- A server holding the three-page chain (fetch appends `?` and an
empty query string to each page URL). -/
def demoServer : String → Option Envelope := fun u =>
  if u = "u1?" then some demoPage1
  else if u = "u2?" then some demoPage2
  else if u = "u3?" then some demoPage3
  else none

/-! ## Dictionary lemmas -/

theorem lookupA_setKey (d : AttrMap) (k : String) (v : Val) (q : String) :
    lookupA (setKey d k v) q = if k = q then some v else lookupA d q := by
  induction d with
  | nil => simp [setKey, lookupA]
  | cons p rest ih =>
    obtain ⟨k', v'⟩ := p
    by_cases h : k' = k
    · rw [h]
      simp only [setKey, if_pos rfl, lookupA]
      by_cases hq : k = q
      · simp [hq]
      · simp [hq]
    · simp only [setKey, if_neg h, lookupA, ih]
      by_cases hq : k' = q
      · have hk : ¬(k = q) := fun hh => h (hq.trans hh.symm)
        simp [hq, hk]
      · simp [hq]

theorem lookupA_delKey (d : AttrMap) (k q : String) :
    lookupA (delKey d k) q = if q = k then none else lookupA d q := by
  induction d with
  | nil => simp [delKey, lookupA]
  | cons p rest ih =>
    obtain ⟨k', v'⟩ := p
    by_cases h : k' = k
    · have hstep : delKey ((k', v') :: rest) k = delKey rest k := by
        simp [delKey, List.filter_cons, h]
      rw [hstep, ih]
      by_cases hq : q = k
      · simp [hq]
      · have hk' : ¬(k' = q) := fun hh => hq (hh.symm.trans h)
        simp [hq, lookupA, hk']
    · have hstep : delKey ((k', v') :: rest) k = (k', v') :: delKey rest k := by
        simp [delKey, List.filter_cons, h]
      rw [hstep]
      simp only [lookupA, ih]
      by_cases hq : k' = q
      · have hk : ¬(q = k) := fun hh => h (hq.trans hh)
        simp [hq, hk]
      · simp [hq]

theorem lookupA_not_mem_keys (d : AttrMap) (q : String) (h : q ∉ keysA d) :
    lookupA d q = none := by
  induction d with
  | nil => rfl
  | cons p rest ih =>
    obtain ⟨k, v⟩ := p
    simp only [keysA, List.map_cons, List.mem_cons, not_or] at h
    simp only [lookupA, if_neg (fun hh : k = q => h.1 hh.symm)]
    exact ih (by simpa [keysA] using h.2)

/-- `dict.update` looked up at a key absent from the update: the
original binding shows through. -/
theorem lookupA_updateA_of_none (r : AttrMap) : ∀ (d : AttrMap) (q : String),
    lookupA r q = none → lookupA (updateA d r) q = lookupA d q := by
  induction r with
  | nil => intro d q _; rfl
  | cons p rest ih =>
    intro d q h
    obtain ⟨k, v⟩ := p
    simp only [lookupA] at h
    by_cases hk : k = q
    · simp [hk] at h
    · rw [if_neg hk] at h
      have hstep : updateA d ((k, v) :: rest) = updateA (setKey d k v) rest := rfl
      rw [hstep, ih _ _ h, lookupA_setKey, if_neg hk]

/-- `dict.update` looked up at a key the (duplicate-free) update binds:
the update's value wins. -/
theorem lookupA_updateA_of_some (r : AttrMap) : ∀ (d : AttrMap) (q : String)
    (v : Val), (keysA r).Nodup → lookupA r q = some v →
    lookupA (updateA d r) q = some v := by
  induction r with
  | nil => intro d q v _ h; simp [lookupA] at h
  | cons p rest ih =>
    intro d q v hnd h
    obtain ⟨k, w⟩ := p
    have hstep : updateA d ((k, w) :: rest) = updateA (setKey d k w) rest := rfl
    rw [hstep]
    simp only [keysA, List.map_cons, List.nodup_cons] at hnd
    simp only [lookupA] at h
    by_cases hk : k = q
    · rw [if_pos hk] at h
      have hrest : lookupA rest q = none :=
        lookupA_not_mem_keys rest q (by rw [← hk]; simpa [keysA] using hnd.1)
      rw [lookupA_updateA_of_none rest _ _ hrest, lookupA_setKey, if_pos hk, h]
    · rw [if_neg hk] at h
      exact ih (setKey d k w) q v hnd.2 h

/-- Folding `dict.update` over raw dicts that all bind `pk` to `k`
(duplicate-free) keeps `pk ↦ k`. -/
theorem lookupA_foldl_updateA (pk : String) (k : Val) :
    ∀ (rs : List AttrMap) (a : AttrMap),
      (∀ r ∈ rs, lookupA r pk = some k ∧ (keysA r).Nodup) →
      lookupA a pk = some k →
      lookupA (rs.foldl updateA a) pk = some k
  | [], a, _, ha => ha
  | r :: rs, a, h, ha => by
    simp only [List.foldl]
    exact lookupA_foldl_updateA pk k rs (updateA a r)
      (fun r2 hr2 => h r2 (List.mem_cons_of_mem _ hr2))
      (lookupA_updateA_of_some r a pk k (h r (List.mem_cons_self _ _)).2
        (h r (List.mem_cons_self _ _)).1)

theorem lookupA_stripEx (ex : List String) : ∀ (d : AttrMap) (q : String),
    lookupA (stripEx ex d) q = if q ∈ ex then none else lookupA d q := by
  induction ex with
  | nil => intro d q; simp [stripEx]
  | cons f ex ih =>
    intro d q
    have hstep : stripEx (f :: ex) d =
        stripEx ex (if (lookupA d f).isSome then delKey d f else d) := rfl
    rw [hstep, ih]
    by_cases hq : q ∈ ex
    · simp [hq]
    · have hmem : (q ∈ f :: ex) ↔ q = f := by simp [hq]
      by_cases hf : q = f
      · rw [if_neg hq, if_pos (hmem.mpr hf)]
        cases hd : lookupA d f with
        | none => simp [hd, hf]
        | some v => simp [hd, lookupA_delKey, hf]
      · rw [if_neg hq, if_neg (fun hh => hf (hmem.mp hh))]
        cases hd : lookupA d f with
        | none => simp [hd]
        | some v => simp [hd, lookupA_delKey, hf]

theorem stripEx_noop (ex : List String) (d : AttrMap)
    (h : ∀ f ∈ ex, lookupA d f = none) : stripEx ex d = d := by
  induction ex with
  | nil => rfl
  | cons f ex ih =>
    simp only [stripEx, List.foldl] at ih ⊢
    rw [h f (List.mem_cons_self _ _)]
    simp only [Option.isSome_none, Bool.false_eq_true, if_false, ite_false]
    exact ih (fun g hg => h g (List.mem_cons_of_mem _ hg))

theorem stripEx_idem (ex : List String) (d : AttrMap) :
    stripEx ex (stripEx ex d) = stripEx ex d :=
  stripEx_noop ex (stripEx ex d)
    (fun f hf => by rw [lookupA_stripEx, if_pos hf])

/-- Whenever the type's `has_key` cannot answer `true` on the stripped
state, `save` cannot take the PUT branch. -/
theorem sentMethod_save_ne_put (cfg : SaveCfg) (tr : Transport)
    (urlOf : AttrMap → Except PyErr Val) (collUrl : Except PyErr String)
    (d0 : AttrMap)
    (h : cfg.hasKeyF (stripEx cfg.excluded (cfg.ser d0)) ≠ .ok true) :
    sentMethod (ShareaboutsModel.save cfg tr urlOf collUrl d0) ≠ some "PUT" := by
  unfold ShareaboutsModel.save
  cases hk : cfg.hasKeyF (stripEx cfg.excluded (cfg.ser d0)) with
  | error e => simp [hk, sentMethod]
  | ok b =>
    cases b with
    | true => exact absurd hk h
    | false =>
      cases collUrl with
      | error e => simp [hk, sentMethod]
      | ok cu =>
        by_cases hst : (tr "POST" cu (stripEx cfg.excluded (cfg.ser d0))).status = 201
        · simp [hk, hst, sentMethod]
        · simp [hk, hst, sentMethod]

/-! ## Claim theorems -/

/-- Claim C2: `parse_page_count` follows exactly the three-branch rule —
with a truthy `next` cursor and a non-empty page, the page count is
`ceil(length / page size)`; else with no `previous` cursor it is 1; else
it is the metadata's own page number — and the three example envelopes
from the specification evaluate to 2, 1 and 2. -/
theorem parse_page_count_three_branch_rule :
    (∀ (e : Envelope) (len : Nat),
      truthyS e.metadata.next = true → 0 < e.results.length →
      e.metadata.length = some len →
      ShareaboutsCollection.parse_page_count e =
        .ok (some (ceilDivPy len e.results.length))) ∧
    (∀ e : Envelope,
      truthyS e.metadata.next = false ∨ e.results.length = 0 →
      truthyS e.metadata.previous = false →
      ShareaboutsCollection.parse_page_count e = .ok (some 1)) ∧
    (∀ e : Envelope,
      truthyS e.metadata.next = false ∨ e.results.length = 0 →
      truthyS e.metadata.previous = true →
      ShareaboutsCollection.parse_page_count e = .ok e.metadata.page) ∧
    ShareaboutsCollection.parse_page_count
      ⟨⟨some "p2", none, some 1, some 10⟩, List.replicate 5 []⟩ = .ok (some 2) ∧
    ShareaboutsCollection.parse_page_count
      ⟨⟨none, none, some 1, some 3⟩, List.replicate 3 []⟩ = .ok (some 1) ∧
    ShareaboutsCollection.parse_page_count
      ⟨⟨none, some "p1", some 2, some 8⟩, List.replicate 3 []⟩ = .ok (some 2) := by
  refine ⟨?_, ?_, ?_, rfl, rfl, rfl⟩
  · intro e len hnext hlen hmeta
    simp [ShareaboutsCollection.parse_page_count, hnext, hlen, hmeta]
  · intro e hstop hprev
    have : (truthyS e.metadata.next && decide (0 < e.results.length)) = false := by
      rcases hstop with h | h <;> simp [h]
    simp [ShareaboutsCollection.parse_page_count, this, hprev]
  · intro e hstop hprev
    have : (truthyS e.metadata.next && decide (0 < e.results.length)) = false := by
      rcases hstop with h | h <;> simp [h]
    simp [ShareaboutsCollection.parse_page_count, this, hprev]

/-- Witness for C2: the first branch applied to the first example
envelope. -/
theorem parse_page_count_three_branch_rule_witness :
    ShareaboutsCollection.parse_page_count
      ⟨⟨some "p2", none, some 1, some 10⟩, List.replicate 5 []⟩ =
      .ok (some (ceilDivPy 10 5)) :=
  parse_page_count_three_branch_rule.1
    ⟨⟨some "p2", none, some 1, some 10⟩, List.replicate 5 []⟩ 10
    (by decide) (by decide) rfl

/-- Claim C10: on a place whose attribute dict has no `properties`
entry, every mapping access of a key other than `geometry`/`id` raises
`KeyError`: item read, `get` with a default (instead of returning the
default), item write, membership, and iteration. -/
theorem place_without_properties_raises :
    ∀ (d : AttrMap) (k : String) (v dflt : Val),
      lookupA d "properties" = none → k ≠ "geometry" → k ≠ "id" →
      placeGetItem d k = .error .keyError ∧
      placeGet d k dflt = .error .keyError ∧
      placeSetItem d k v = .error .keyError ∧
      placeMem d k = .error .keyError ∧
      placeIter d = .error .keyError := by
  intro d k v dflt hnp hk1 hk2
  refine ⟨?_, ?_, ?_, ?_, ?_⟩
  · simp [placeGetItem, hk1, hk2, hnp]
  · simp [placeGet, hk1, hk2, hnp]
  · simp [placeSetItem, hk1, hk2, hnp]
  · simp [placeMem, hk1, hk2, hnp]
  · simp [placeIter, hnp]

/-- Witness for C10: the empty place and the key `"name"`. -/
theorem place_without_properties_raises_witness :
    lookupA ([] : AttrMap) "properties" = none ∧
    placeGet ([] : AttrMap) "name" (Val.s "dflt") = .error .keyError ∧
    placeGetItem ([] : AttrMap) "name" = .error .keyError := by
  refine ⟨rfl, ?_⟩
  have h := place_without_properties_raises [] "name" Val.null (Val.s "dflt")
    rfl (by decide) (by decide)
  exact ⟨h.2.1, h.1⟩

/-- Claim C5 counterexample: deletion does not route by key name.  On a
place whose `properties` dict holds `"name"`, the routed item read finds
the key, yet `del place["name"]` raises `KeyError` because
`__delitem__` is inherited unrouted and only touches the top level. -/
theorem place_delete_not_routed :
    placeGetItem [("properties", Val.objOf [("name", Val.s "x")])] "name" =
      .ok (Val.s "x") ∧
    placeDelItem [("properties", Val.objOf [("name", Val.s "x")])] "name" =
      .error .keyError :=
  ⟨rfl, rfl⟩

/-- Claim C5 (amended): item read, item write, `get`, membership and
iteration route by key name — `geometry`/`id` to the top level,
everything else into `properties`, iteration yielding the top-level
`geometry`/`id` keys before the other `properties` keys — but deletion
is not routed: it always acts on the top-level dict. -/
theorem place_mapping_routes_by_key :
    ∀ (d props : AttrMap) (k : String) (v dflt : Val),
      lookupA d "properties" = some (Val.objOf props) →
      ((k = "geometry" ∨ k = "id") →
        placeSetItem d k v = .ok (setKey d k v) ∧
        placeGetItem d k = plainGetItem d k ∧
        placeGet d k dflt = .ok ((lookupA d k).getD dflt) ∧
        placeMem d k = .ok (lookupA d k).isSome) ∧
      (¬(k = "geometry" ∨ k = "id") →
        placeSetItem d k v = .ok (setKey d "properties" (Val.objOf (setKey props k v))) ∧
        placeGetItem d k = plainGetItem props k ∧
        placeGet d k dflt = .ok ((lookupA props k).getD dflt) ∧
        placeMem d k = .ok (lookupA props k).isSome) ∧
      placeIter d = .ok
        ((keysA d).filter (fun q => decide (q = "geometry" ∨ q = "id")) ++
          (keysA props).filter (fun q => decide (¬(q = "geometry" ∨ q = "id")))) ∧
      placeDelItem d k =
        (if (lookupA d k).isSome then .ok (delKey d k) else .error .keyError) := by
  intro d props k v dflt hprops
  refine ⟨?_, ?_, ?_, rfl⟩
  · intro hk
    refine ⟨?_, ?_, ?_, ?_⟩
    · simp [placeSetItem, hk]
    · simp [placeGetItem, hk]
    · simp [placeGet, hk]
    · cases htop : (lookupA d k).isSome with
      | true => simp [placeMem, hk, htop]
      | false =>
        simp [placeMem, hk, htop, hprops, Val.asObj_objOf]
  · intro hk
    refine ⟨?_, ?_, ?_, ?_⟩
    · simp [placeSetItem, hk, hprops, Val.asObj_objOf]
    · simp [placeGetItem, hk, hprops, Val.asObj_objOf]
    · simp [placeGet, hk, hprops, Val.asObj_objOf]
    · simp [placeMem, hk, hprops, Val.asObj_objOf]
  · simp [placeIter, hprops, Val.asObj_objOf]

/-- Witness for the amended C5 on concrete data: a place with a
geometry, an id, and a `properties` dict. -/
theorem place_mapping_routes_by_key_witness :
    lookupA [("id", Val.s "1"), ("properties", Val.objOf [("name", Val.s "x")])]
      "properties" = some (Val.objOf [("name", Val.s "x")]) ∧
    placeSetItem [("id", Val.s "1"), ("properties", Val.objOf [("name", Val.s "x")])]
      "age" (Val.n 3) =
      .ok [("id", Val.s "1"),
        ("properties", Val.objOf [("name", Val.s "x"), ("age", Val.n 3)])] ∧
    placeIter [("id", Val.s "1"), ("properties", Val.objOf [("name", Val.s "x")])] =
      .ok ["id", "name"] := by
  have h := place_mapping_routes_by_key
    [("id", Val.s "1"), ("properties", Val.objOf [("name", Val.s "x")])]
    [("name", Val.s "x")] "age" (Val.n 3) Val.null rfl
  refine ⟨rfl, ?_, ?_⟩
  · have h2 := (h.2.1 (by decide)).1
    rw [h2]
    rfl
  · have h3 := h.2.2.1
    rw [h3]
    rfl

/-- Claim C3, evaluated at the failing input: a default-keyed model that
*does* hold its primary key (`id = "5"`).  `save` strips `id` from the
model's own dict before routing, so it issues a POST to the collection
URL expecting 201 — not the PUT to its own URL expecting 200 that the
claim requires — and the payload no longer carries the id. -/
theorem save_with_id_posts_instead_of_put :
    ShareaboutsModel.save defaultSaveCfg demoTransport201
      (fun d => ShareaboutsModel.url plainMem plainGetItem (plainKeyOf "id") "id" d
        (some (.ok "http://h/api/places")))
      (.ok "http://h/api/places")
      [("id", Val.s "5"), ("name", Val.s "x")] =
    .ok (⟨"POST", "http://h/api/places", [("name", Val.s "x")]⟩,
      [("name", Val.s "x"), ("id", Val.s "6")]) :=
  rfl

/-- Claim C8: `serialize` is the identity on the model's own dict, so
`save` behaves identically on a model and on its pre-stripped state —
the post-strip attributes alone determine the route and the payload —
and consequently a model whose primary key is among its excluded fields
(the default `id`-keyed types, places, submissions) can never take the
PUT branch. -/
theorem save_routes_on_stripped_state :
    ∀ (pk : String) (ex : List String) (hkF : AttrMap → Except PyErr Bool)
      (tr : Transport) (urlOf : AttrMap → Except PyErr Val)
      (collUrl : Except PyErr String) (d0 : AttrMap),
      ShareaboutsModel.save ⟨pk, ex, id, hkF⟩ tr urlOf collUrl d0 =
        ShareaboutsModel.save ⟨pk, ex, id, hkF⟩ tr urlOf collUrl (stripEx ex d0) ∧
      sentMethod (ShareaboutsModel.save defaultSaveCfg tr urlOf collUrl d0) ≠
        some "PUT" ∧
      sentMethod (ShareaboutsModel.save submissionSaveCfg tr urlOf collUrl d0) ≠
        some "PUT" ∧
      sentMethod (ShareaboutsModel.save placeSaveCfg tr urlOf collUrl d0) ≠
        some "PUT" := by
  intro pk ex hkF tr urlOf collUrl d0
  refine ⟨?_, ?_, ?_, ?_⟩
  · simp only [ShareaboutsModel.save, id_eq, stripEx_idem]
  · refine sentMethod_save_ne_put _ tr urlOf collUrl d0 ?_
    have hid : lookupA (stripEx stdExcluded d0) "id" = none := by
      rw [lookupA_stripEx]
      simp [stdExcluded]
    simp [defaultSaveCfg, plainSaveCfg, plainHasKey, plainMem, hid]
  · refine sentMethod_save_ne_put _ tr urlOf collUrl d0 ?_
    have hid : lookupA (stripEx (stdExcluded ++ ["dataset"]) d0) "id" = none := by
      rw [lookupA_stripEx]
      simp [stdExcluded]
    simp [submissionSaveCfg, plainSaveCfg, plainHasKey, plainMem, hid]
  · refine sentMethod_save_ne_put _ tr urlOf collUrl d0 ?_
    have hid : lookupA (stripEx (stdExcluded ++ ["dataset"]) d0) "id" = none := by
      rw [lookupA_stripEx]
      simp [stdExcluded]
    simp only [placeSaveCfg, placeHasKey, placeMem, id_eq, hid]
    cases hp : lookupA (stripEx (stdExcluded ++ ["dataset"]) d0) "properties" with
    | none => simp
    | some pv =>
      cases hobj : pv.asObj with
      | none => simp [hobj]
      | some props => simp [hobj]

/-- Witness for C8 on a concrete id-keyed model: saving behaves as on
the stripped state, and no PUT is issued although the id is present. -/
theorem save_routes_on_stripped_state_witness :
    ShareaboutsModel.save ⟨"id", stdExcluded, id, plainHasKey "id"⟩
      demoTransport201 (fun _ => .ok (Val.s "own")) (.ok "collU")
      [("id", Val.s "5"), ("name", Val.s "x")] =
      ShareaboutsModel.save ⟨"id", stdExcluded, id, plainHasKey "id"⟩
        demoTransport201 (fun _ => .ok (Val.s "own")) (.ok "collU")
        (stripEx stdExcluded [("id", Val.s "5"), ("name", Val.s "x")]) ∧
    sentMethod (ShareaboutsModel.save defaultSaveCfg demoTransport201
      (fun _ => .ok (Val.s "own")) (.ok "collU")
      [("id", Val.s "5"), ("name", Val.s "x")]) ≠ some "PUT" :=
  ⟨(save_routes_on_stripped_state "id" stdExcluded (plainHasKey "id")
      demoTransport201 (fun _ => .ok (Val.s "own")) (.ok "collU")
      [("id", Val.s "5"), ("name", Val.s "x")]).1,
    (save_routes_on_stripped_state "id" stdExcluded (plainHasKey "id")
      demoTransport201 (fun _ => .ok (Val.s "own")) (.ok "collU")
      [("id", Val.s "5"), ("name", Val.s "x")]).2.1⟩

/-- Claim C7 counterexample: a dataset holding only its slug — so with
*no* creation timestamp — is not treated as new when saving: `has_key`
is true (datasets are keyed by `slug`) and `save` issues a PUT, where
the claimed timestamp-based override would have treated it as new. -/
theorem dataset_without_timestamp_is_not_new :
    plainHasKey "slug" [("slug", Val.s "foo")] = .ok true ∧
    sentMethod (ShareaboutsModel.save datasetSaveCfg demoTransport200
      (fun _ => .ok (Val.s "a/datasets/foo")) (.ok "a/datasets")
      [("slug", Val.s "foo")]) = some "PUT" :=
  ⟨rfl, rfl⟩

/-- Claim C7 (amended): a resource is new iff its primary-key attribute
is absent, and there is no dataset-specific creation-timestamp override:
a dataset is keyed by `slug`, so a dataset carrying a slug — creation
timestamp or not — is treated as existing and saved with a PUT. -/
theorem dataset_new_iff_slug_absent :
    ∀ (d : AttrMap) (v : Val) (tr : Transport) (urlStr : String)
      (cu : Except PyErr String),
      lookupA d "slug" = some v →
      lookupA d "created_datetime" = none →
      (∀ m u p, (tr m u p).status = 200) →
      sentMethod (ShareaboutsModel.save datasetSaveCfg tr
        (fun _ => .ok (Val.s urlStr)) cu d) = some "PUT" := by
  intro d v tr urlStr cu hslug hts h200
  have hser : lookupA (ShareaboutsDataset.serializeNoSets d) "slug" = some v := by
    rw [ShareaboutsDataset.serializeNoSets, lookupA_setKey]
    simp [hslug]
  have hkey : lookupA (stripEx stdExcluded (ShareaboutsDataset.serializeNoSets d))
      "slug" = some v := by
    rw [lookupA_stripEx]
    simp [stdExcluded, hser]
  simp only [ShareaboutsModel.save, datasetSaveCfg, plainHasKey, plainMem, hkey,
    Option.isSome_some, asUrlString, h200, sentMethod]
  simp [sentMethod]

/-- Witness for the amended C7: the slug-only dataset saved through the
all-200 transport. -/
theorem dataset_new_iff_slug_absent_witness :
    sentMethod (ShareaboutsModel.save datasetSaveCfg demoTransport200
      (fun _ => .ok (Val.s "a/datasets/foo")) (.ok "a/datasets")
      [("slug", Val.s "foo"), ("display", Val.b true)]) = some "PUT" :=
  dataset_new_iff_slug_absent [("slug", Val.s "foo"), ("display", Val.b true)]
    (Val.s "foo") demoTransport200 "a/datasets/foo" (.ok "a/datasets")
    rfl rfl (fun _ _ _ => rfl)

theorem endsWithSlash_append (r s : String) (h : s.data ≠ []) :
    endsWithSlash (r ++ s) = endsWithSlash s := by
  simp only [endsWithSlash, String.data_append]
  rw [List.getLast?_append_of_ne_nil _ h]

/-- Claim C4: URL derivation composes the parent URL, the fixed suffix
and the primary key.  For any API root ending in a slash, the place set
of dataset `"foo"` owned by account `"alice"` lives at
`<root>alice/datasets/foo/places`, and a place with id `"42"` held there
(and no explicit `url` attribute) at
`<root>alice/datasets/foo/places/42`. -/
theorem url_derivation_composes (root : String)
    (hroot : endsWithSlash root = true) :
    ShareaboutsPlaceSet.url root [("username", Val.s "alice")]
      [("slug", Val.s "foo")] = .ok (root ++ "alice/datasets/foo/places") ∧
    ShareaboutsPlace.url root [("username", Val.s "alice")]
      [("slug", Val.s "foo")]
      [("id", Val.s "42"), ("properties", Val.objOf [])] =
      .ok (Val.s (root ++ "alice/datasets/foo/places/42")) := by
  have hacc : ShareaboutsAccount.url root [("username", Val.s "alice")] =
      .ok (Val.s (root ++ "alice")) := by
    simp [ShareaboutsAccount.url, ShareaboutsModel.url, ShareaboutsAccountSet.url,
      plainMem, plainGetItem, plainKeyOf, lookupA, hroot, Bind.bind, Except.bind]
  have hdsSet : ShareaboutsDatasetSet.url root [("username", Val.s "alice")] =
      .ok ((root ++ "alice") ++ "/datasets") := by
    simp [ShareaboutsDatasetSet.url, hacc, asUrlString]
  have hslash1 : endsWithSlash ((root ++ "alice") ++ "/datasets") = false := by
    rw [endsWithSlash_append _ _ (by decide)]
    rfl
  have hds : ShareaboutsDataset.url root [("username", Val.s "alice")]
      [("slug", Val.s "foo")] =
      .ok (Val.s ((((root ++ "alice") ++ "/datasets") ++ "/") ++ "foo")) := by
    simp [ShareaboutsDataset.url, ShareaboutsModel.url, hdsSet,
      plainMem, plainGetItem, plainKeyOf, lookupA, hslash1, Bind.bind, Except.bind]
  have hplSet : ShareaboutsPlaceSet.url root [("username", Val.s "alice")]
      [("slug", Val.s "foo")] =
      .ok ((((((root ++ "alice") ++ "/datasets") ++ "/") ++ "foo")) ++ "/places") := by
    simp [ShareaboutsPlaceSet.url, hds, asUrlString]
  have hflat1 : (((((root ++ "alice") ++ "/datasets") ++ "/") ++ "foo")) ++ "/places" =
      root ++ "alice/datasets/foo/places" := by
    simp only [String.append_assoc]
    exact congrArg (fun s => root ++ s) (by decide)
  have hslash2 : endsWithSlash (root ++ "alice/datasets/foo/places") = false := by
    rw [endsWithSlash_append _ _ (by decide)]
    rfl
  refine ⟨by rw [hplSet, hflat1], ?_⟩
  have hpl : ShareaboutsPlace.url root [("username", Val.s "alice")]
      [("slug", Val.s "foo")]
      [("id", Val.s "42"), ("properties", Val.objOf [])] =
      .ok (Val.s (((root ++ "alice/datasets/foo/places") ++ "/") ++ "42")) := by
    simp only [ShareaboutsPlace.url, hplSet, hflat1]
    simp [ShareaboutsModel.url, placeMem, placeGetItem, placeKeyOf, lookupA,
      Val.asObj_objOf, hslash2, Bind.bind, Except.bind, Val.asObj]
  rw [hpl]
  simp only [String.append_assoc]
  exact congrArg (fun s => Except.ok (Val.s (root ++ s))) (by decide)


/-- Witness for C4: the documented default root. -/
theorem url_derivation_composes_witness :
    ShareaboutsPlaceSet.url "http://localhost:8000/api/v2/"
      [("username", Val.s "alice")] [("slug", Val.s "foo")] =
      .ok ("http://localhost:8000/api/v2/" ++ "alice/datasets/foo/places") :=
  (url_derivation_composes "http://localhost:8000/api/v2/" (by decide)).1

/-- Claim C6: `fetch_all` yields exactly one raw envelope per page, in
page order, following each envelope's `next` cursor and stopping when a
fetched envelope has none: a server chain of `n` pages yields exactly
those `n` envelopes (for any fuel bound of at least `n`, so the run
terminates without exhausting the fuel). -/
theorem fetch_all_follows_chain :
    ∀ (pages : List Envelope) (server : String → Option Envelope)
      (pk qs url : String) (c : ShareaboutsCollection) (fuel : Nat),
      isChainB server qs url pages = true → pages.length ≤ fuel →
      ∃ c', ShareaboutsCollection.fetch_all server pk qs fuel url c =
        .ok (pages, c') := by
  intro pages
  induction pages with
  | nil =>
    intro server pk qs url c fuel hchain _
    have hurl : truthyStr url = false := by simpa [isChainB] using hchain
    cases fuel with
    | zero => exact ⟨c, by simp [ShareaboutsCollection.fetch_all, hurl]⟩
    | succ f => exact ⟨c, by simp [ShareaboutsCollection.fetch_all, hurl]⟩
  | cons e es ih =>
    intro server pk qs url c fuel hchain hfuel
    simp only [isChainB, Bool.and_eq_true, decide_eq_true_eq] at hchain
    obtain ⟨⟨⟨hurl, hsrv⟩, hparse⟩, hrest⟩ := hchain
    cases fuel with
    | zero => simp at hfuel
    | succ f =>
      obtain ⟨pc, hpc⟩ : ∃ pc, ShareaboutsCollection.parse_page_count e = .ok pc := by
        cases hp : ShareaboutsCollection.parse_page_count e with
        | ok pc => exact ⟨pc, rfl⟩
        | error err => rw [hp] at hparse; simp [exOk] at hparse
      have hfuel' : es.length ≤ f := by
        simp only [List.length_cons] at hfuel
        omega
      obtain ⟨c2, hc2⟩ := ih server pk qs (nextUrl e)
        (ShareaboutsCollection.updateColl pk c e.results) f hrest hfuel'
      refine ⟨c2, ?_⟩
      simp [ShareaboutsCollection.fetch_all, hurl, ShareaboutsCollection.fetch,
        hsrv, hpc, hc2]

/-- Witness for C6: the three-page demo chain yields exactly its three
envelopes. -/
theorem fetch_all_follows_chain_witness :
    isChainB demoServer "" "u1" [demoPage1, demoPage2, demoPage3] = true ∧
    ∃ c', ShareaboutsCollection.fetch_all demoServer "id" "" 5 "u1" ⟨[], [], []⟩ =
      .ok ([demoPage1, demoPage2, demoPage3], c') :=
  ⟨by decide,
    fetch_all_follows_chain [demoPage1, demoPage2, demoPage3] demoServer "id" ""
      "u1" ⟨[], [], []⟩ 5 (by decide) (by decide)⟩

/-! ## Store and identity-map lemmas -/

theorem storeGet_append_self (st : List AttrMap) (d : AttrMap) :
    storeGet (st ++ [d]) st.length = d := by
  simp [storeGet, List.getElem?_concat_length]

theorem storeGet_append_lt (st : List AttrMap) (d : AttrMap) (mid : Nat)
    (h : mid < st.length) : storeGet (st ++ [d]) mid = storeGet st mid := by
  simp [storeGet, List.getElem?_append_left h]

theorem storeGet_set_self (st : List AttrMap) (mid : Nat) (d : AttrMap)
    (h : mid < st.length) : storeGet (storeSet st mid d) mid = d := by
  simp [storeGet, storeSet, List.getElem?_set_self h]

theorem storeGet_set_ne (st : List AttrMap) (mid j : Nat) (d : AttrMap)
    (h : j ≠ mid) : storeGet (storeSet st mid d) j = storeGet st j := by
  simp [storeGet, storeSet, List.getElem?_set_ne (fun hh => h hh.symm)]

theorem assocFind_append_of_none (l : List (Val × Nat)) (k : Val) (m : Nat)
    (h : assocFind l k = none) : assocFind (l ++ [(k, m)]) k = some m := by
  induction l with
  | nil => simp [assocFind]
  | cons p rest ih =>
    obtain ⟨k', m'⟩ := p
    simp only [assocFind] at h
    by_cases hk : k' = k
    · simp [hk] at h
    · rw [if_neg hk] at h
      simp only [List.cons_append, assocFind, if_neg hk]
      exact ih h

theorem idOf_of_lookup (pk : String) (d : AttrMap) (k : Val)
    (h : lookupA d pk = some k) (hk : k ≠ Val.null) :
    ShareaboutsCollection.idOf pk d = some k := by
  unfold ShareaboutsCollection.idOf
  rw [h]
  cases k with
  | null => exact absurd rfl hk
  | s v => rfl
  | n v => rfl
  | b v => rfl
  | onil => rfl
  | ocons a b c => rfl

theorem idOf_of_lookup_none (pk : String) (d : AttrMap)
    (h : lookupA d pk = none) : ShareaboutsCollection.idOf pk d = none := by
  unfold ShareaboutsCollection.idOf
  rw [h]

/-- Merging updates: while the identity map holds `k ↦ mid`, an `update`
whose every element carries primary key `k` only rewrites the instance
at `mid` (folding `dict.update` over it) and leaves the sequence, the
identity map, every other instance, and the store size unchanged. -/
theorem updateColl_merges (pk : String) (k : Val) (mid : Nat) :
    ∀ (rs : List AttrMap) (c : ShareaboutsCollection),
      assocFind c.byId k = some mid → mid < c.store.length →
      (∀ r ∈ rs, ShareaboutsCollection.idOf pk r = some k) →
      (ShareaboutsCollection.updateColl pk c rs).seq = c.seq ∧
      (ShareaboutsCollection.updateColl pk c rs).byId = c.byId ∧
      (ShareaboutsCollection.updateColl pk c rs).store.length = c.store.length ∧
      storeGet (ShareaboutsCollection.updateColl pk c rs).store mid =
        rs.foldl updateA (storeGet c.store mid) ∧
      (∀ j, j ≠ mid →
        storeGet (ShareaboutsCollection.updateColl pk c rs).store j =
          storeGet c.store j)
  | [], c, _, _, _ => ⟨rfl, rfl, rfl, rfl, fun _ _ => rfl⟩
  | r :: rs, c, hfind, hlt, hall => by
    have hid : ShareaboutsCollection.idOf pk r = some k :=
      hall r (List.mem_cons_self _ _)
    have hadd : (ShareaboutsCollection.add pk c r).1 =
        ⟨storeSet c.store mid (updateA (storeGet c.store mid) r), c.seq, c.byId⟩ := by
      simp [ShareaboutsCollection.add, hid, ShareaboutsCollection.getById, hfind]
    have hstep : ShareaboutsCollection.updateColl pk c (r :: rs) =
        ShareaboutsCollection.updateColl pk
          ⟨storeSet c.store mid (updateA (storeGet c.store mid) r), c.seq, c.byId⟩ rs := by
      simp only [ShareaboutsCollection.updateColl, List.foldl]
      rw [hadd]
    have ih := updateColl_merges pk k mid rs
      ⟨storeSet c.store mid (updateA (storeGet c.store mid) r), c.seq, c.byId⟩
      hfind (by simpa [storeSet] using hlt)
      (fun r2 h2 => hall r2 (List.mem_cons_of_mem _ h2))
    obtain ⟨h1, h2, h3, h4, h5⟩ := ih
    rw [hstep]
    refine ⟨h1, h2, by simpa [storeSet] using h3, ?_, ?_⟩
    · rw [h4, storeGet_set_self _ _ _ hlt]
      rfl
    · intro j hj
      rw [h5 j hj, storeGet_set_ne _ _ _ _ hj]

/-! ## Claims C1 and C9 -/

/-- Claim C1: a sequence of `add` calls whose raw data share one
primary-key value leaves exactly one model for that key.  Starting from
a collection that does not yet know the key, the first `add` appends a
fresh instance and registers it in the identity map; each later `add`
merges into that same store slot, appending nothing; every other
instance is untouched; and the one instance holds the fold of all the
updates, so every external reference to that slot observes the merged
attributes. -/
theorem add_dedups_by_primary_key :
    ∀ (pk : String) (k : Val) (c : ShareaboutsCollection) (r0 : AttrMap)
      (rest : List AttrMap),
      k ≠ Val.null →
      assocFind c.byId k = none →
      (∀ mid ∈ c.seq, lookupA (storeGet c.store mid) pk ≠ some k) →
      (∀ mid ∈ c.seq, mid < c.store.length) →
      (∀ r ∈ r0 :: rest, lookupA r pk = some k) →
      (∀ r ∈ r0 :: rest, (keysA r).Nodup) →
      (ShareaboutsCollection.updateColl pk c (r0 :: rest)).seq =
        c.seq ++ [c.store.length] ∧
      assocFind (ShareaboutsCollection.updateColl pk c (r0 :: rest)).byId k =
        some c.store.length ∧
      storeGet (ShareaboutsCollection.updateColl pk c (r0 :: rest)).store
        c.store.length = rest.foldl updateA r0 ∧
      (∀ mid ∈ c.seq,
        storeGet (ShareaboutsCollection.updateColl pk c (r0 :: rest)).store mid =
          storeGet c.store mid) ∧
      ((ShareaboutsCollection.updateColl pk c (r0 :: rest)).seq.filter
        (fun mid => decide (lookupA
          (storeGet (ShareaboutsCollection.updateColl pk c (r0 :: rest)).store mid)
          pk = some k))).length = 1 := by
  intro pk k c r0 rest hknull hnew hnoseq hlt hk hnd
  have hid0 : ShareaboutsCollection.idOf pk r0 = some k :=
    idOf_of_lookup pk r0 k (hk r0 (List.mem_cons_self _ _)) hknull
  have hadd0 : (ShareaboutsCollection.add pk c r0).1 =
      ⟨c.store ++ [r0], c.seq ++ [c.store.length],
        c.byId ++ [(k, c.store.length)]⟩ := by
    simp [ShareaboutsCollection.add, hid0, ShareaboutsCollection.getById, hnew]
  have hstep : ShareaboutsCollection.updateColl pk c (r0 :: rest) =
      ShareaboutsCollection.updateColl pk
        ⟨c.store ++ [r0], c.seq ++ [c.store.length],
          c.byId ++ [(k, c.store.length)]⟩ rest := by
    simp only [ShareaboutsCollection.updateColl, List.foldl]
    rw [hadd0]
  have hfind1 : assocFind (c.byId ++ [(k, c.store.length)]) k =
      some c.store.length := assocFind_append_of_none _ _ _ hnew
  have hmerge := updateColl_merges pk k c.store.length rest
    ⟨c.store ++ [r0], c.seq ++ [c.store.length], c.byId ++ [(k, c.store.length)]⟩
    hfind1 (by simp)
    (fun r hr => idOf_of_lookup pk r k (hk r (List.mem_cons_of_mem _ hr)) hknull)
  obtain ⟨h1, h2, h3, h4, h5⟩ := hmerge
  rw [hstep]
  have hbase : storeGet (c.store ++ [r0]) c.store.length = r0 :=
    storeGet_append_self c.store r0
  have hat : storeGet (ShareaboutsCollection.updateColl pk
      ⟨c.store ++ [r0], c.seq ++ [c.store.length], c.byId ++ [(k, c.store.length)]⟩
      rest).store c.store.length = rest.foldl updateA r0 := by
    rw [h4]
    simp only [hbase]
  have hothers : ∀ mid ∈ c.seq,
      storeGet (ShareaboutsCollection.updateColl pk
        ⟨c.store ++ [r0], c.seq ++ [c.store.length], c.byId ++ [(k, c.store.length)]⟩
        rest).store mid = storeGet c.store mid := by
    intro mid hmid
    have hne : mid ≠ c.store.length := Nat.ne_of_lt (hlt mid hmid)
    rw [h5 mid hne, storeGet_append_lt _ _ _ (hlt mid hmid)]
  refine ⟨by rw [h1], by rw [h2]; exact hfind1, hat, hothers, ?_⟩
  have hkey : lookupA (rest.foldl updateA r0) pk = some k :=
    lookupA_foldl_updateA pk k rest r0
      (fun r hr => ⟨hk r (List.mem_cons_of_mem _ hr),
        hnd r (List.mem_cons_of_mem _ hr)⟩)
      (hk r0 (List.mem_cons_self _ _))
  rw [h1]
  rw [List.filter_append]
  have hleft : (c.seq.filter
      (fun mid => decide (lookupA (storeGet (ShareaboutsCollection.updateColl pk
        ⟨c.store ++ [r0], c.seq ++ [c.store.length], c.byId ++ [(k, c.store.length)]⟩
        rest).store mid) pk = some k))) = [] := by
    rw [List.filter_eq_nil_iff]
    intro mid hmid
    rw [hothers mid hmid]
    simpa using hnoseq mid hmid
  rw [hleft]
  simp [hat, hkey]

/-- Claim C9: `add` calls whose raw data lack the primary-key attribute
append fresh, mutually distinct instances to the sequence but never
register them: the identity map is unchanged (so keyed `get` can never
reach them), and `__contains__` is false for each such raw dict. -/
theorem keyless_add_appends_unregistered :
    ∀ (pk : String) (c : ShareaboutsCollection) (raws : List AttrMap),
      (∀ r ∈ raws, lookupA r pk = none) →
      (ShareaboutsCollection.updateColl pk c raws).byId = c.byId ∧
      (ShareaboutsCollection.updateColl pk c raws).seq =
        c.seq ++ List.range' c.store.length raws.length ∧
      (ShareaboutsCollection.updateColl pk c raws).store = c.store ++ raws ∧
      (∀ r ∈ raws, ShareaboutsCollection.memData pk
        (ShareaboutsCollection.updateColl pk c raws) r = false) ∧
      ((∀ p ∈ c.byId, p.2 < c.store.length) →
        ∀ p ∈ (ShareaboutsCollection.updateColl pk c raws).byId,
          p.2 < c.store.length)
  | pk, c, [], h => by
    simp [ShareaboutsCollection.updateColl]
  | pk, c, r :: rs, h => by
    have hid : ShareaboutsCollection.idOf pk r = none :=
      idOf_of_lookup_none pk r (h r (List.mem_cons_self _ _))
    have hadd : (ShareaboutsCollection.add pk c r).1 =
        ⟨c.store ++ [r], c.seq ++ [c.store.length], c.byId⟩ := by
      simp [ShareaboutsCollection.add, hid, ShareaboutsCollection.getById]
    have hstep : ShareaboutsCollection.updateColl pk c (r :: rs) =
        ShareaboutsCollection.updateColl pk
          ⟨c.store ++ [r], c.seq ++ [c.store.length], c.byId⟩ rs := by
      simp only [ShareaboutsCollection.updateColl, List.foldl]
      rw [hadd]
    have ih := keyless_add_appends_unregistered pk
      ⟨c.store ++ [r], c.seq ++ [c.store.length], c.byId⟩ rs
      (fun r2 h2 => h r2 (List.mem_cons_of_mem _ h2))
    obtain ⟨i1, i2, i3, i4, i5⟩ := ih
    rw [hstep]
    refine ⟨i1, ?_, ?_, ?_, ?_⟩
    · rw [i2]
      simp [List.range'_succ, List.append_assoc]
    · rw [i3]
      simp
    · intro r2 hr2
      rcases List.mem_cons.mp hr2 with rfl | hr2
      · simp [ShareaboutsCollection.memData, hid]
      · exact i4 r2 hr2
    · intro hwf p hp
      rw [i1] at hp
      exact hwf p hp

/-- Witness for C1: two raw dicts with id `"1"` merge into the single
instance at store slot 0 of an initially empty collection. -/
theorem add_dedups_by_primary_key_witness :
    (∀ r ∈ [[("id", Val.s "1"), ("a", Val.s "x")],
        [("id", Val.s "1"), ("b", Val.s "y")]],
      lookupA r "id" = some (Val.s "1")) ∧
    (ShareaboutsCollection.updateColl "id" ⟨[], [], []⟩
      [[("id", Val.s "1"), ("a", Val.s "x")],
        [("id", Val.s "1"), ("b", Val.s "y")]]).seq = [0] ∧
    assocFind (ShareaboutsCollection.updateColl "id" ⟨[], [], []⟩
      [[("id", Val.s "1"), ("a", Val.s "x")],
        [("id", Val.s "1"), ("b", Val.s "y")]]).byId (Val.s "1") = some 0 ∧
    storeGet (ShareaboutsCollection.updateColl "id" ⟨[], [], []⟩
      [[("id", Val.s "1"), ("a", Val.s "x")],
        [("id", Val.s "1"), ("b", Val.s "y")]]).store 0 =
      [("id", Val.s "1"), ("a", Val.s "x"), ("b", Val.s "y")] := by
  have h := add_dedups_by_primary_key "id" (Val.s "1") ⟨[], [], []⟩
    [("id", Val.s "1"), ("a", Val.s "x")]
    [[("id", Val.s "1"), ("b", Val.s "y")]]
    (by decide) rfl (by simp) (by simp)
    (by simp [List.forall_mem_cons]; decide)
    (by simp [List.forall_mem_cons]; decide)
  exact ⟨by simp [List.forall_mem_cons]; decide, h.1, h.2.1, h.2.2.1⟩

/-- Witness for C9: two keyless adds to the empty collection append two
distinct unregistered instances. -/
theorem keyless_add_appends_unregistered_witness :
    (ShareaboutsCollection.updateColl "id" ⟨[], [], []⟩
      [[("c", Val.s "z")], [("c", Val.s "z")]]).byId = [] ∧
    (ShareaboutsCollection.updateColl "id" ⟨[], [], []⟩
      [[("c", Val.s "z")], [("c", Val.s "z")]]).seq = [0, 1] ∧
    (ShareaboutsCollection.updateColl "id" ⟨[], [], []⟩
      [[("c", Val.s "z")], [("c", Val.s "z")]]).store =
      [[("c", Val.s "z")], [("c", Val.s "z")]] ∧
    ShareaboutsCollection.memData "id"
      (ShareaboutsCollection.updateColl "id" ⟨[], [], []⟩
        [[("c", Val.s "z")], [("c", Val.s "z")]]) [("c", Val.s "z")] = false := by
  have h := keyless_add_appends_unregistered "id" ⟨[], [], []⟩
    [[("c", Val.s "z")], [("c", Val.s "z")]]
    (by simp [List.forall_mem_cons]; decide)
  exact ⟨h.1, by rw [h.2.1]; rfl, by rw [h.2.2.1]; rfl,
    h.2.2.2.1 [("c", Val.s "z")] (List.mem_cons_self _ _)⟩

end PyShareabouts
